import Mathlib

/-
  Verification development for the Progjar_ETS file-transfer service
  (src/file_server.py and src/file_client_cli_test.py).

  The wire level is modelled shallowly: a TCP receive stream is the list of
  chunks the transport delivers (`NetStream`); an exhausted list models the
  peer having closed the connection, matching `recv` returning b"".
  All byte values are `Nat`s; ASCII literals are produced by `bytes`.

  Loops from the source are embedded with an explicit fuel argument so that
  every definition is structurally recursive and kernel-evaluable; the
  chosen default fuel is a proven upper bound on the number of iterations
  (each iteration strictly decreases the corresponding measure), so the
  fuel-exhausted branch is unreachable at the wrappers used by the theorems.
-/

namespace FileSrv

/-- A socket receive stream: the chunks the transport delivers, in order.
An exhausted list models a closed connection (recv returns b""). -/
abbrev NetStream := List (List Nat)

/-- BUFFER_SIZE from file_server.py line 12. -/
def BUFFER_SIZE : Nat := 524288

/-- The header delimiter bytes CR LF CR LF. -/
def delim : List Nat := [13, 10, 13, 10]

/-- ASCII byte values of a string literal. -/
def bytes (s : String) : List Nat := s.toList.map Char.toNat

/-- All bytes carried by a stream, in order. -/
def flatten : NetStream → List Nat
  | [] => []
  | s :: t => s ++ flatten t

/-- Termination measure for receive loops: total bytes plus segment count.
Each successful recv strictly decreases it. -/
def streamWeight (st : NetStream) : Nat := (flatten st).length + st.length

/-- Models socket.recv(n): returns up to n bytes from the front of the
stream (the transport decides segmentation); an empty result models a
closed connection. A segment larger than n is split, the remainder stays
buffered. -/
def recv (n : Nat) : NetStream → List Nat × NetStream
  | [] => ([], [])
  | s :: rest => if s.length ≤ n then (s, rest) else (s.take n, s.drop n :: rest)

/-- Whitespace bytes recognised by str.split() on ASCII text
(space, tab, LF, VT, FF, CR). -/
def isWs (b : Nat) : Bool := b == 32 || b == 9 || b == 10 || b == 11 || b == 12 || b == 13

/-- Accumulator-based tokenizer; models str.split() (split on runs of
whitespace, drop empty tokens) over ASCII bytes. -/
def splitWsAux (acc : List Nat) : List Nat → List (List Nat)
  | [] => if acc.isEmpty then [] else [acc.reverse]
  | b :: t =>
      if isWs b then
        (if acc.isEmpty then splitWsAux [] t else acc.reverse :: splitWsAux [] t)
      else splitWsAux (b :: acc) t

/-- Models header_text.split() from file_server.py line 52 (the preceding
.strip() is a no-op for tokenization). -/
def splitWs (l : List Nat) : List (List Nat) := splitWsAux [] l

/-- Models str.upper() on an ASCII byte. -/
def upperByte (b : Nat) : Nat := if 97 ≤ b ∧ b ≤ 122 then b - 32 else b

/-- A byte allowed by the regex character class [\w\-.] of
is_valid_filename (file_server.py line 34), restricted to ASCII:
digits, upper/lower letters, underscore, hyphen, dot. -/
def fnByte (b : Nat) : Bool :=
  (decide (48 ≤ b) && decide (b ≤ 57)) || (decide (65 ≤ b) && decide (b ≤ 90)) ||
  (decide (97 ≤ b) && decide (b ≤ 122)) || b == 95 || b == 45 || b == 46

/-- Models is_valid_filename (file_server.py lines 32-36): the token must
be nonempty and every byte must be in the class [\w\-.]. -/
def is_valid_filename (fn : List Nat) : Bool := !fn.isEmpty && fn.all fnByte

/-- Decimal digit accumulation for int(); none on a non-digit byte. -/
def digitsAux (acc : Nat) : List Nat → Option Nat
  | [] => some acc
  | b :: t => if 48 ≤ b ∧ b ≤ 57 then digitsAux (acc * 10 + (b - 48)) t else none

/-- A nonempty all-digit byte list as a Nat. -/
def digitsToNat : List Nat → Option Nat
  | [] => none
  | l@(_ :: _) => digitsAux 0 l

/-- Models int(parts[2]) (file_server.py line 64): optional sign followed
by decimal digits; none models the ValueError branch. (Underscore digit
separators and non-ASCII digits accepted by Python are outside the claims
and not modelled.) -/
def parseSize (tok : List Nat) : Option Int :=
  match tok with
  | [] => none
  | b :: t =>
      if b = 43 then (digitsToNat t).map (fun n => (n : Int))
      else if b = 45 then (digitsToNat t).map (fun n => -(n : Int))
      else (digitsToNat (b :: t)).map (fun n => (n : Int))

/-- First-occurrence split at the delimiter: some (before, after) mirrors
header_data.find(b"\r\n\r\n") with header_end slicing (lines 72-73). -/
def splitAtDelim : List Nat → Option (List Nat × List Nat)
  | [] => none
  | b :: t =>
      if delim.isPrefixOf (b :: t) then some ([], (b :: t).drop 4)
      else
        match splitAtDelim t with
        | none => none
        | some (pre, post) => some (b :: pre, post)

/-- Models `b"\r\n\r\n" in header_data` (line 44). -/
def containsDelim (l : List Nat) : Bool := (splitAtDelim l).isSome

/-- Models header_data[header_end:] (line 73); empty when no delimiter is
present (unreachable after the header loop). -/
def afterDelim (l : List Nat) : List Nat := ((splitAtDelim l).getD ([], [])).2

/-- The header accumulation loop (file_server.py lines 43-49): recv chunks
until the delimiter is in the buffer; none models the client disconnecting
before a full header (and fuel exhaustion, unreachable from readHeader). -/
def readHeaderLoop : Nat → List Nat → NetStream → Option (List Nat × NetStream)
  | 0, _, _ => none
  | fuel + 1, buf, st =>
      if containsDelim buf then some (buf, st)
      else
        let r := recv BUFFER_SIZE st
        if r.1 = [] then none
        else readHeaderLoop fuel (buf ++ r.1) r.2

/-- Header phase with sufficient fuel: each iteration strictly decreases
streamWeight, so streamWeight st + 1 rounds always suffice. -/
def readHeader (st : NetStream) : Option (List Nat × NetStream) :=
  readHeaderLoop (streamWeight st + 1) [] st

/-- The UPLOAD receive loop (file_server.py lines 82-87): while remaining
is positive, recv at most min(BUFFER_SIZE, remaining) bytes; stop early on
a closed connection. Returns the bytes received and the rest of the
stream. -/
def recvPayloadF : Nat → NetStream → Int → List Nat × NetStream
  | 0, st, _ => ([], st)
  | fuel + 1, st, remaining =>
      if remaining ≤ 0 then ([], st)
      else
        let r := recv (min BUFFER_SIZE remaining.toNat) st
        if r.1 = [] then ([], r.2)
        else
          let more := recvPayloadF fuel r.2 (remaining - r.1.length)
          (r.1 ++ more.1, more.2)

/-- Payload phase with sufficient fuel: each iteration consumes at least
one byte of remaining, so remaining.toNat + 1 rounds always suffice. -/
def recvPayload (st : NetStream) (remaining : Int) : List Nat × NetStream :=
  recvPayloadF (remaining.toNat + 1) st remaining

/-- The server storage directory as a flat name-to-content store
(STORAGE_DIR holds plain files keyed by filename). -/
abbrev FS := List (List Nat × List Nat)

/-- Models os.path.exists / open(filepath, 'rb').read(). -/
def fsLookup (fs : FS) (name : List Nat) : Option (List Nat) :=
  match fs with
  | [] => none
  | (n, c) :: t => if n = name then some c else fsLookup t name

/-- Models open(filepath, 'wb') followed by writing content: truncating
overwrite, creating the entry when absent. -/
def fsWrite (fs : FS) (name : List Nat) (content : List Nat) : FS :=
  match fs with
  | [] => [(name, content)]
  | (n, c) :: t => if n = name then (name, content) :: t else (n, c) :: fsWrite t name content

/-- The data field of a server JSON response (before serialization):
a literal message, the f-string "Uploaded {filename}", or the GET
metadata dict. -/
inductive RespData where
  | msg (s : String)
  | uploaded (filename : List Nat)
  | fileInfo (filename : List Nat) (filesize : Nat)
deriving DecidableEq, Repr

/-- A send_json_response payload: {"status": status, "data": data}. -/
structure Response where
  status : String
  data : RespData
deriving DecidableEq, Repr

/-- Observable outcome of one connection: the JSON response (none when the
handler returned before sending one), the raw payload bytes sent after it,
and the resulting storage state. -/
structure HandleResult where
  resp : Option Response
  payload : List Nat
  fs : FS
deriving DecidableEq, Repr

/-- The request-processing phase of handle_client_raw (file_server.py
lines 51-110), given the accumulated buffer and the remaining stream.
Note the source tokenizes the whole accumulated buffer, including any
bytes already read past the delimiter. The GET file-send loop
(lines 102-107) streams the entire stored content, so the payload sent is
the content itself. -/
def handleRequest (fs : FS) (buf : List Nat) (rest : NetStream) : HandleResult :=
  match splitWs buf with
  | p0 :: p1 :: p2 :: _ =>
      let command := p0.map upperByte
      if is_valid_filename p1 then
        match parseSize p2 with
        | some filesize =>
            if command = bytes "UPLOAD" then
              let file_data := afterDelim buf
              let remaining : Int := filesize - file_data.length
              if remaining < 0 then
                ⟨some ⟨"ERROR", .msg "File size smaller than received data"⟩, [], fs⟩
              else
                let got := recvPayload rest remaining
                let fs2 := fsWrite fs p1 (file_data ++ got.1)
                if remaining - got.1.length > 0 then
                  ⟨some ⟨"ERROR", .msg "Incomplete file received"⟩, [], fs2⟩
                else
                  ⟨some ⟨"OK", .uploaded p1⟩, [], fs2⟩
            else if command = bytes "GET" then
              match fsLookup fs p1 with
              | none => ⟨some ⟨"ERROR", .msg "File not found"⟩, [], fs⟩
              | some content => ⟨some ⟨"OK", .fileInfo p1 content.length⟩, content, fs⟩
            else ⟨some ⟨"ERROR", .msg "Invalid command"⟩, [], fs⟩
        | none => ⟨some ⟨"ERROR", .msg "Invalid file size"⟩, [], fs⟩
      else ⟨some ⟨"ERROR", .msg "Invalid filename"⟩, [], fs⟩
  | _ => ⟨some ⟨"ERROR", .msg "Invalid command format"⟩, [], fs⟩

/-- Models handle_client_raw (file_server.py lines 38-110) acting on one
connection: read the header, then process the request. -/
def handle_client_raw (fs : FS) (st : NetStream) : HandleResult :=
  match readHeader st with
  | none => ⟨none, [], fs⟩
  | some (buf, rest) => handleRequest fs buf rest

/-- The client response-payload loop in send_command
(file_client_cli_test.py lines 58-62): while fewer than filesize bytes are
accumulated, recv a full 524288-byte chunk (not bounded by the bytes still
missing). -/
def clientRecvF : Nat → List Nat → NetStream → Nat → List Nat × NetStream
  | 0, fd, st, _ => (fd, st)
  | fuel + 1, fd, st, filesize =>
      if filesize ≤ fd.length then (fd, st)
      else
        let r := recv 524288 st
        if r.1 = [] then (fd, r.2)
        else clientRecvF fuel (fd ++ r.1) r.2 filesize

/-- Client payload loop with sufficient fuel (each iteration adds at least
one byte, so filesize + 1 rounds always suffice). -/
def clientRecvPayload (fd : List Nat) (st : NetStream) (filesize : Nat) : List Nat × NetStream :=
  clientRecvF (filesize + 1) fd st filesize

/-- The request frame `UPLOAD <fn> <sz>\r\n\r\n<payload>` built by
remote_upload / send_command in the client. -/
def uploadRequest (fn sz payload : List Nat) : List Nat :=
  bytes "UPLOAD" ++ [32] ++ fn ++ [32] ++ sz ++ delim ++ payload

/-- The request frame `GET <fn> <sz>\r\n\r\n` built by remote_download. -/
def getRequest (fn sz : List Nat) : List Nat :=
  bytes "GET" ++ [32] ++ fn ++ [32] ++ sz ++ delim

/-! ## Basic facts about recv and the header loop -/

theorem recv_join (n : Nat) (st : NetStream) :
    (recv n st).1 ++ flatten (recv n st).2 = flatten st := by
  cases st with
  | nil => simp [recv, flatten]
  | cons s rest =>
    by_cases h : s.length ≤ n
    · simp [recv, h, flatten]
    · simp only [recv, h, if_false, flatten]
      rw [← List.append_assoc, List.take_append_drop]

theorem recv_length_le (n : Nat) (st : NetStream) : (recv n st).1.length ≤ n := by
  cases st with
  | nil => simp [recv]
  | cons s rest =>
    by_cases h : s.length ≤ n
    · simp [recv, h]
    · simp [recv, h]

theorem recv_fst_ne_nil (n : Nat) (s : List Nat) (rest : NetStream)
    (hs : s ≠ []) (hn : 0 < n) : (recv n (s :: rest)).1 ≠ [] := by
  by_cases h : s.length ≤ n
  · simp only [recv, h, if_true]
    exact hs
  · simp only [recv, h, if_false]
    intro hcon
    rcases List.take_eq_nil_iff.mp hcon with h0 | h0
    · omega
    · exact hs h0

theorem recv_weight_lt (n : Nat) (st : NetStream) (h : (recv n st).1 ≠ []) :
    streamWeight (recv n st).2 < streamWeight st := by
  cases st with
  | nil => simp [recv] at h
  | cons s rest =>
    by_cases hle : s.length ≤ n
    · simp only [recv, hle, if_true, streamWeight, flatten, List.length_append,
        List.length_cons]
      omega
    · simp only [recv, hle, if_false] at h ⊢
      have hn : 0 < n := by
        by_contra hn0
        exact h (by simp [List.take_eq_nil_iff]; omega)
      simp only [streamWeight, flatten, List.length_append, List.length_cons,
        List.length_drop, List.length_take]
      omega

theorem recv_segs_ne_nil (n : Nat) (st : NetStream) (h : ∀ s ∈ st, s ≠ []) :
    ∀ s ∈ (recv n st).2, s ≠ [] := by
  cases st with
  | nil => simp [recv]
  | cons s rest =>
    by_cases hle : s.length ≤ n
    · simp only [recv, hle, if_true]
      exact fun x hx => h x (List.mem_cons_of_mem _ hx)
    · simp only [recv, hle, if_false]
      intro x hx
      rcases List.mem_cons.mp hx with rfl | hx
      · intro hcon
        have := congrArg List.length hcon
        simp [List.length_drop] at this
        omega
      · exact h x (List.mem_cons_of_mem _ hx)

theorem readHeaderLoop_spec : ∀ (fuel : Nat) (buf : List Nat) (st : NetStream),
    streamWeight st < fuel → (∀ s ∈ st, s ≠ []) →
    containsDelim (buf ++ flatten st) = true →
    ∃ X rest, readHeaderLoop fuel buf st = some (buf ++ X, rest) ∧
      flatten st = X ++ flatten rest ∧
      containsDelim (buf ++ X) = true ∧
      (∀ s ∈ rest, s ≠ []) := by
  intro fuel
  induction fuel with
  | zero => intro buf st hw; omega
  | succ fuel ih =>
    intro buf st hw hne hcd
    by_cases hd : containsDelim buf = true
    · refine ⟨[], st, ?_, ?_, ?_, hne⟩
      · simp [readHeaderLoop, hd]
      · simp
      · simpa using hd
    · have hst : st ≠ [] := by
        rintro rfl
        simp [flatten] at hcd
        exact hd hcd
      obtain ⟨s, rest0, rfl⟩ := List.exists_cons_of_ne_nil hst
      have hch : (recv BUFFER_SIZE (s :: rest0)).1 ≠ [] :=
        recv_fst_ne_nil _ _ _ (hne s (List.mem_cons_self s rest0)) (by norm_num [BUFFER_SIZE])
      have hwlt := recv_weight_lt BUFFER_SIZE (s :: rest0) hch
      have hjoin := recv_join BUFFER_SIZE (s :: rest0)
      have hcd2 : containsDelim ((buf ++ (recv BUFFER_SIZE (s :: rest0)).1) ++
          flatten (recv BUFFER_SIZE (s :: rest0)).2) = true := by
        rw [List.append_assoc, hjoin]; exact hcd
      obtain ⟨X, rest, hrun, hflat, hcX, hner⟩ :=
        ih (buf ++ (recv BUFFER_SIZE (s :: rest0)).1) (recv BUFFER_SIZE (s :: rest0)).2
          (by omega) (recv_segs_ne_nil _ _ hne) hcd2
      refine ⟨(recv BUFFER_SIZE (s :: rest0)).1 ++ X, rest, ?_, ?_, ?_, hner⟩
      · rw [readHeaderLoop, if_neg (by simpa using hd)]
        simp only [if_neg hch]
        rw [hrun, List.append_assoc]
      · rw [← hjoin, hflat, List.append_assoc]
      · rwa [← List.append_assoc]

/-! ## Facts about the delimiter split -/

theorem delim_isPrefixOf_append (P : List Nat) :
    delim.isPrefixOf (delim ++ P) = true :=
  List.isPrefixOf_iff_prefix.mpr (List.prefix_append delim P)

theorem not_delim_isPrefixOf_cons (b : Nat) (t : List Nat) (hb : b ≠ 13) :
    ¬ delim.isPrefixOf (b :: t) = true := by
  intro hpre
  obtain ⟨r, hr⟩ := List.isPrefixOf_iff_prefix.mp hpre
  simp only [delim] at hr
  injection hr with h1 _
  exact hb h1.symm

theorem splitAtDelim_noCR : ∀ (H P : List Nat), (∀ b ∈ H, b ≠ 13) →
    splitAtDelim (H ++ delim ++ P) = some (H, P) := by
  intro H
  induction H with
  | nil =>
    intro P _
    have hpre : delim.isPrefixOf (13 :: 10 :: 13 :: 10 :: P) = true :=
      delim_isPrefixOf_append P
    rw [List.nil_append, show delim ++ P = 13 :: 10 :: 13 :: 10 :: P from rfl,
      splitAtDelim, if_pos hpre]
    rfl
  | cons b H ih =>
    intro P h
    have hb : b ≠ 13 := h b (List.mem_cons_self b H)
    have hih := ih P (fun x hx => h x (List.mem_cons_of_mem b hx))
    have hc : delim.isPrefixOf (b :: (H ++ delim ++ P)) = false :=
      Bool.eq_false_iff.mpr (not_delim_isPrefixOf_cons b _ hb)
    rw [List.cons_append]
    simp only [splitAtDelim, List.append_eq, hc, Bool.false_eq_true, if_false, hih]

theorem splitAtDelim_eq_append : ∀ (l x y : List Nat),
    splitAtDelim l = some (x, y) → l = x ++ delim ++ y := by
  intro l
  induction l with
  | nil => intro x y h; simp [splitAtDelim] at h
  | cons b t ih =>
    intro x y h
    by_cases hpre : delim.isPrefixOf (b :: t) = true
    · rw [splitAtDelim, if_pos hpre] at h
      obtain ⟨r, hr⟩ := List.isPrefixOf_iff_prefix.mp hpre
      rw [Option.some.injEq, Prod.mk.injEq] at h
      obtain ⟨hx, hy⟩ := h
      subst hx
      have hyr : y = r := by
        rw [← hy, ← hr]
        rw [show (4 : Nat) = delim.length from rfl, List.drop_left]
      subst hyr
      rw [List.nil_append, ← hr]
    · have hc : delim.isPrefixOf (b :: t) = false := Bool.eq_false_iff.mpr hpre
      rw [splitAtDelim] at h
      simp only [hc, Bool.false_eq_true, if_false] at h
      cases hsp : splitAtDelim t with
      | none => rw [hsp] at h; simp at h
      | some pr =>
        obtain ⟨pre, post⟩ := pr
        rw [hsp] at h
        rw [Option.some.injEq, Prod.mk.injEq] at h
        obtain ⟨hx, hy⟩ := h
        subst hx; subst hy
        rw [List.cons_append, List.cons_append, ← ih pre post hsp]

theorem delim_decomp_len : ∀ (H a c p : List Nat), (∀ b ∈ H, b ≠ 13) →
    a ++ delim ++ c = H ++ delim ++ p → H.length ≤ a.length := by
  intro H
  induction H with
  | nil => intro a c p _ _; simp
  | cons h0 H ih =>
    intro a c p hH heq
    cases a with
    | nil =>
      rw [List.nil_append, show delim ++ c = 13 :: 10 :: 13 :: 10 :: c from rfl,
        List.cons_append] at heq
      injection heq with h1 _
      exact absurd h1.symm (hH h0 (List.mem_cons_self h0 H))
    | cons a0 a' =>
      rw [List.cons_append, List.cons_append] at heq
      injection heq with _ h2
      have := ih a' c p (fun x hx => hH x (List.mem_cons_of_mem h0 hx)) h2
      simp only [List.length_cons]
      omega

theorem prefix_with_delim (X Y H P : List Nat)
    (hXY : X ++ Y = H ++ delim ++ P) (hH : ∀ b ∈ H, b ≠ 13)
    (hX : containsDelim X = true) :
    ∃ P1, X = H ++ delim ++ P1 ∧ P = P1 ++ Y := by
  rw [containsDelim, Option.isSome_iff_exists] at hX
  obtain ⟨⟨a, b⟩, hab⟩ := hX
  have hXab := splitAtDelim_eq_append X a b hab
  have hfull : a ++ delim ++ (b ++ Y) = H ++ delim ++ P := by
    rw [← hXY, hXab]; simp [List.append_assoc]
  have hlen : H.length ≤ a.length := delim_decomp_len H a (b ++ Y) P hH hfull
  have hXlen : H.length + 4 ≤ X.length := by
    rw [hXab]
    simp only [List.length_append, delim, List.length_cons, List.length_nil]
    omega
  have hAlen : (H ++ delim).length = H.length + 4 := by
    simp [delim]
  have hX1 : X = H ++ delim ++ P.take (X.length - H.length - 4) := by
    conv_lhs => rw [← List.take_left X Y, hXY]
    rw [List.take_append_eq_append_take,
      List.take_of_length_le (by omega : (H ++ delim).length ≤ X.length), hAlen,
      show X.length - (H.length + 4) = X.length - H.length - 4 by omega]
  refine ⟨P.take (X.length - H.length - 4), hX1, ?_⟩
  have hcat : H ++ delim ++ (P.take (X.length - H.length - 4) ++ Y) =
      H ++ delim ++ P := by
    rw [← List.append_assoc, ← hX1, hXY]
  exact (List.append_cancel_left hcat).symm

theorem afterDelim_noCR (H P : List Nat) (hH : ∀ b ∈ H, b ≠ 13) :
    afterDelim (H ++ delim ++ P) = P := by
  rw [afterDelim, splitAtDelim_noCR H P hH]
  rfl

theorem containsDelim_noCR (H P : List Nat) (hH : ∀ b ∈ H, b ≠ 13) :
    containsDelim (H ++ delim ++ P) = true := by
  rw [containsDelim, splitAtDelim_noCR H P hH]
  rfl

theorem splitAtDelim_append_noCR : ∀ (l m : List Nat), (∀ b ∈ l, b ≠ 13) →
    splitAtDelim (l ++ m) = (splitAtDelim m).map (fun p => (l ++ p.1, p.2)) := by
  intro l
  induction l with
  | nil =>
    intro m _
    rw [List.nil_append]
    cases splitAtDelim m with
    | none => rfl
    | some pr => simp
  | cons b l ih =>
    intro m h
    have hb : b ≠ 13 := h b (List.mem_cons_self b l)
    have hc : delim.isPrefixOf (b :: (l ++ m)) = false :=
      Bool.eq_false_iff.mpr (not_delim_isPrefixOf_cons b _ hb)
    rw [List.cons_append, splitAtDelim]
    simp only [hc, Bool.false_eq_true, if_false,
      ih m (fun x hx => h x (List.mem_cons_of_mem b hx))]
    cases splitAtDelim m with
    | none => rfl
    | some pr => simp

theorem afterDelim_append_noCR (l m : List Nat) (h : ∀ b ∈ l, b ≠ 13) :
    afterDelim (l ++ m) = afterDelim m := by
  rw [afterDelim, splitAtDelim_append_noCR l m h, afterDelim]
  cases splitAtDelim m with
  | none => rfl
  | some pr => simp

/-! ## Tokenization facts -/

theorem splitWsAux_ws_nil (w : Nat) (hw : isWs w = true) (l : List Nat) :
    splitWsAux [] (w :: l) = splitWsAux [] l := by
  simp [splitWsAux, hw]

theorem splitWsAux_token : ∀ (c : List Nat), (∀ b ∈ c, isWs b = false) →
    ∀ (acc l : List Nat), splitWsAux acc (c ++ l) = splitWsAux (c.reverse ++ acc) l := by
  intro c
  induction c with
  | nil => intro _ acc l; simp
  | cons b c ih =>
    intro hc acc l
    have hb : isWs b = false := hc b (List.mem_cons_self b c)
    rw [List.cons_append]
    simp only [splitWsAux, hb, Bool.false_eq_true, if_false]
    rw [ih (fun x hx => hc x (List.mem_cons_of_mem b hx)) (b :: acc) l]
    congr 1
    simp [List.reverse_cons, List.append_assoc]

theorem splitWs_token_sep (c : List Nat) (hne : c ≠ []) (hc : ∀ b ∈ c, isWs b = false)
    (w : Nat) (hw : isWs w = true) (l : List Nat) :
    splitWsAux [] (c ++ w :: l) = c :: splitWsAux [] l := by
  rw [splitWsAux_token c hc [] (w :: l), List.append_nil]
  have hrev : c.reverse.isEmpty = false := by
    simp [List.isEmpty_iff, hne]
  simp [splitWsAux, hw, hrev]

theorem splitWs_request (c f s P : List Nat)
    (hcne : c ≠ []) (hcw : ∀ b ∈ c, isWs b = false)
    (hfne : f ≠ []) (hfw : ∀ b ∈ f, isWs b = false)
    (hsne : s ≠ []) (hsw : ∀ b ∈ s, isWs b = false) :
    splitWs (c ++ [32] ++ f ++ [32] ++ s ++ delim ++ P) = c :: f :: s :: splitWs P := by
  have h32 : isWs 32 = true := by decide
  have h13 : isWs 13 = true := by decide
  have h10 : isWs 10 = true := by decide
  rw [splitWs, splitWs]
  rw [show c ++ [32] ++ f ++ [32] ++ s ++ delim ++ P =
      c ++ (32 :: (f ++ (32 :: (s ++ (13 :: 10 :: 13 :: 10 :: P))))) by
    simp [delim, List.append_assoc]]
  rw [splitWs_token_sep c hcne hcw 32 h32,
    splitWs_token_sep f hfne hfw 32 h32,
    splitWs_token_sep s hsne hsw 13 h13,
    splitWsAux_ws_nil 10 h10, splitWsAux_ws_nil 13 h13, splitWsAux_ws_nil 10 h10]

/-! ## Facts about the payload receive loop -/

theorem recvPayloadF_take : ∀ (fuel : Nat) (st : NetStream) (remaining : Int),
    remaining.toNat < fuel → (∀ s ∈ st, s ≠ []) →
    (recvPayloadF fuel st remaining).1 = (flatten st).take remaining.toNat := by
  intro fuel
  induction fuel with
  | zero => intro st r h _; omega
  | succ fuel ih =>
    intro st r hf hne
    by_cases hr : r ≤ 0
    · have h0 : r.toNat = 0 := by omega
      simp [recvPayloadF, hr, h0]
    · cases st with
      | nil => simp [recvPayloadF, hr, recv, flatten]
      | cons s rest0 =>
        have hn : 0 < min BUFFER_SIZE r.toNat := by
          have h1 : 0 < r.toNat := by omega
          have h2 : 0 < BUFFER_SIZE := by norm_num [BUFFER_SIZE]
          omega
        set ch := (recv (min BUFFER_SIZE r.toNat) (s :: rest0)).1 with hch_def
        set rest := (recv (min BUFFER_SIZE r.toNat) (s :: rest0)).2 with hrest_def
        have hch : ch ≠ [] :=
          recv_fst_ne_nil (min BUFFER_SIZE r.toNat) s rest0
            (hne s (List.mem_cons_self s rest0)) hn
        have hjoin : ch ++ flatten rest = flatten (s :: rest0) :=
          recv_join (min BUFFER_SIZE r.toNat) (s :: rest0)
        have hchlen : ch.length ≤ r.toNat :=
          le_trans (recv_length_le (min BUFFER_SIZE r.toNat) (s :: rest0))
            (min_le_right _ _)
        have hner : ∀ x ∈ rest, x ≠ [] :=
          recv_segs_ne_nil (min BUFFER_SIZE r.toNat) (s :: rest0) hne
        have hlt : (r - ch.length).toNat < fuel := by
          have hpos : 0 < ch.length := List.length_pos.mpr hch
          omega
        rw [recvPayloadF]
        simp only [if_neg hr, if_neg hch, ← hch_def, ← hrest_def]
        rw [ih rest (r - ch.length) hlt hner, ← hjoin,
          List.take_append_eq_append_take, List.take_of_length_le hchlen,
          show r.toNat - ch.length = (r - ch.length).toNat by omega]

theorem recvPayloadF_bound : ∀ (fuel : Nat) (st : NetStream) (remaining : Int),
    (recvPayloadF fuel st remaining).1.length ≤ remaining.toNat ∧
    (recvPayloadF fuel st remaining).1 ++ flatten (recvPayloadF fuel st remaining).2 =
      flatten st := by
  intro fuel
  induction fuel with
  | zero => intro st r; simp [recvPayloadF]
  | succ fuel ih =>
    intro st r
    by_cases hr : r ≤ 0
    · simp [recvPayloadF, hr]
    · set ch := (recv (min BUFFER_SIZE r.toNat) st).1 with hch_def
      set rest := (recv (min BUFFER_SIZE r.toNat) st).2 with hrest_def
      have hjoin : ch ++ flatten rest = flatten st :=
        recv_join (min BUFFER_SIZE r.toNat) st
      have hchlen : ch.length ≤ r.toNat :=
        le_trans (recv_length_le (min BUFFER_SIZE r.toNat) st) (min_le_right _ _)
      by_cases hch : ch = []
      · rw [recvPayloadF]
        simp only [if_neg hr, if_pos hch, ← hch_def, ← hrest_def]
        rw [hch] at hjoin
        rw [List.nil_append] at hjoin
        exact ⟨by simp, by simp [hjoin]⟩
      · obtain ⟨hlen, hcat⟩ := ih rest (r - ch.length)
        rw [recvPayloadF]
        simp only [if_neg hr, if_neg hch, ← hch_def, ← hrest_def]
        constructor
        · simp only [List.length_append]
          omega
        · rw [List.append_assoc, hcat, hjoin]

/-! ## Token shape facts -/

theorem ws13 : isWs 13 = true := by decide

theorem not_ws_ne13 (b : Nat) (h : isWs b = false) : b ≠ 13 := by
  intro hb
  rw [hb, ws13] at h
  cases h

theorem digit_not_ws (b : Nat) (h1 : 48 ≤ b) (h2 : b ≤ 57) : isWs b = false := by
  rw [Bool.eq_false_iff]
  intro hw
  simp only [isWs, Bool.or_eq_true, beq_iff_eq] at hw
  omega

theorem fnByte_not_ws (b : Nat) (h : fnByte b = true) : isWs b = false := by
  simp only [fnByte, Bool.or_eq_true, Bool.and_eq_true, decide_eq_true_eq,
    beq_iff_eq] at h
  rw [Bool.eq_false_iff]
  intro hw
  simp only [isWs, Bool.or_eq_true, beq_iff_eq] at hw
  omega

theorem valid_filename_props (fn : List Nat) (h : is_valid_filename fn = true) :
    fn ≠ [] ∧ ∀ b ∈ fn, isWs b = false := by
  rw [is_valid_filename, Bool.and_eq_true] at h
  obtain ⟨h1, h2⟩ := h
  refine ⟨?_, ?_⟩
  · intro hcon
    subst hcon
    simp at h1
  · intro b hb
    exact fnByte_not_ws b (List.all_eq_true.mp h2 b hb)

theorem digitsAux_digits : ∀ (l : List Nat) (acc n : Nat),
    digitsAux acc l = some n → ∀ b ∈ l, 48 ≤ b ∧ b ≤ 57 := by
  intro l
  induction l with
  | nil => intro acc n _ b hb; simp at hb
  | cons b t ih =>
    intro acc n h x hx
    rw [digitsAux] at h
    split at h
    · rename_i hd
      rcases List.mem_cons.mp hx with rfl | hx
      · exact hd
      · exact ih _ n h x hx
    · cases h

theorem digitsToNat_digits (l : List Nat) (n : Nat) (h : digitsToNat l = some n) :
    l ≠ [] ∧ ∀ b ∈ l, 48 ≤ b ∧ b ≤ 57 := by
  cases l with
  | nil => simp [digitsToNat] at h
  | cons b t =>
    rw [digitsToNat] at h
    exact ⟨List.cons_ne_nil b t, digitsAux_digits (b :: t) 0 n h⟩

theorem parseSize_props (tok : List Nat) (v : Int) (h : parseSize tok = some v) :
    tok ≠ [] ∧ ∀ b ∈ tok, isWs b = false := by
  cases tok with
  | nil => simp [parseSize] at h
  | cons b t =>
    refine ⟨List.cons_ne_nil _ _, ?_⟩
    rw [parseSize] at h
    by_cases h43 : b = 43
    · rw [if_pos h43] at h
      cases hn : digitsToNat t with
      | none => rw [hn] at h; simp at h
      | some n =>
        obtain ⟨-, hdig⟩ := digitsToNat_digits t n hn
        intro x hx
        rcases List.mem_cons.mp hx with rfl | hx
        · rw [h43]; decide
        · exact digit_not_ws x (hdig x hx).1 (hdig x hx).2
    · rw [if_neg h43] at h
      by_cases h45 : b = 45
      · rw [if_pos h45] at h
        cases hn : digitsToNat t with
        | none => rw [hn] at h; simp at h
        | some n =>
          obtain ⟨-, hdig⟩ := digitsToNat_digits t n hn
          intro x hx
          rcases List.mem_cons.mp hx with rfl | hx
          · rw [h45]; decide
          · exact digit_not_ws x (hdig x hx).1 (hdig x hx).2
      · rw [if_neg h45] at h
        cases hn : digitsToNat (b :: t) with
        | none => rw [hn] at h; simp at h
        | some n =>
          obtain ⟨-, hdig⟩ := digitsToNat_digits (b :: t) n hn
          exact fun x hx => digit_not_ws x (hdig x hx).1 (hdig x hx).2

/-! ## Storage facts -/

theorem fsLookup_fsWrite (fs : FS) (n c : List Nat) :
    fsLookup (fsWrite fs n c) n = some c := by
  induction fs with
  | nil => simp [fsWrite, fsLookup]
  | cons p t ih =>
    obtain ⟨m, d⟩ := p
    by_cases h : m = n
    · subst h
      simp [fsWrite, fsLookup]
    · simp [fsWrite, fsLookup, h, ih]

/-! ## Reduction of the handler on well-formed request streams -/

theorem handle_split (fs : FS) (st : NetStream) (H P : List Nat)
    (hne : ∀ s ∈ st, s ≠ []) (hst : flatten st = H ++ delim ++ P)
    (hH : ∀ b ∈ H, b ≠ 13) :
    ∃ P1 rest, P = P1 ++ flatten rest ∧ (∀ s ∈ rest, s ≠ []) ∧
      handle_client_raw fs st = handleRequest fs (H ++ delim ++ P1) rest := by
  have hcd : containsDelim ([] ++ flatten st) = true := by
    rw [List.nil_append, hst]
    exact containsDelim_noCR H P hH
  obtain ⟨X, rest, hrun, hflat, hcX, hner⟩ :=
    readHeaderLoop_spec (streamWeight st + 1) [] st (by omega) hne hcd
  rw [List.nil_append] at hrun hcX
  have hXY : X ++ flatten rest = H ++ delim ++ P := by
    rw [← hflat, hst]
  obtain ⟨P1, hX1, hP⟩ := prefix_with_delim X (flatten rest) H P hXY hH hcX
  refine ⟨P1, rest, hP, hner, ?_⟩
  rw [handle_client_raw, readHeader, hrun, hX1]

theorem header_bytes_ne13 (c fn sz : List Nat)
    (hcw : ∀ b ∈ c, isWs b = false) (hfw : ∀ b ∈ fn, isWs b = false)
    (hsw : ∀ b ∈ sz, isWs b = false) :
    ∀ b ∈ c ++ [32] ++ fn ++ [32] ++ sz, b ≠ 13 := by
  intro b hb
  simp only [List.mem_append, List.mem_singleton] at hb
  rcases hb with (((hb | hb) | hb) | hb) | hb
  · exact not_ws_ne13 b (hcw b hb)
  · subst hb; decide
  · exact not_ws_ne13 b (hfw b hb)
  · subst hb; decide
  · exact not_ws_ne13 b (hsw b hb)

theorem handle_upload_le (fs : FS) (fn sz P : List Nat) (S : Int) (st : NetStream)
    (hne : ∀ s ∈ st, s ≠ []) (hst : flatten st = uploadRequest fn sz P)
    (hfn : is_valid_filename fn = true) (hsz : parseSize sz = some S)
    (hSP : (P.length : Int) ≤ S) :
    handle_client_raw fs st =
      ⟨some (if (P.length : Int) < S
          then ⟨"ERROR", .msg "Incomplete file received"⟩
          else ⟨"OK", .uploaded fn⟩), [], fsWrite fs fn P⟩ := by
  obtain ⟨hfnne, hfnw⟩ := valid_filename_props fn hfn
  obtain ⟨hszne, hszw⟩ := parseSize_props sz S hsz
  have hcw : ∀ b ∈ bytes "UPLOAD", isWs b = false := by decide
  have hcne : bytes "UPLOAD" ≠ [] := by decide
  have hH13 : ∀ b ∈ bytes "UPLOAD" ++ [32] ++ fn ++ [32] ++ sz, b ≠ 13 :=
    header_bytes_ne13 _ fn sz hcw hfnw hszw
  have hst2 : flatten st =
      (bytes "UPLOAD" ++ [32] ++ fn ++ [32] ++ sz) ++ delim ++ P := by
    rw [hst, uploadRequest]
  obtain ⟨P1, rest, hP, hner, hhandle⟩ :=
    handle_split fs st (bytes "UPLOAD" ++ [32] ++ fn ++ [32] ++ sz) P hne hst2 hH13
  have hP1len : P1.length ≤ P.length := by
    rw [hP]; simp
  have hflen : P.length = P1.length + (flatten rest).length := by
    rw [hP]; simp
  rw [hhandle]
  simp only [handleRequest]
  rw [splitWs_request (bytes "UPLOAD") fn sz P1 hcne hcw hfnne hfnw hszne hszw]
  simp only [hfn, hsz, if_true]
  rw [if_pos (by decide : (bytes "UPLOAD").map upperByte = bytes "UPLOAD")]
  rw [afterDelim_noCR _ P1 hH13]
  rw [if_neg (show ¬ (S - (P1.length : Int) < 0) by omega)]
  have hgot : (recvPayload rest (S - (P1.length : Int))).1 = flatten rest := by
    rw [recvPayload, recvPayloadF_take _ _ _ (by omega) hner]
    exact List.take_of_length_le (by omega)
  rw [hgot, ← hP]
  by_cases hcase : (P.length : Int) < S
  · rw [if_pos (by omega), if_pos hcase]
  · rw [if_neg (by omega), if_neg hcase]

theorem handle_get (fs : FS) (fn sz : List Nat) (v : Int) (st : NetStream)
    (hne : ∀ s ∈ st, s ≠ []) (hst : flatten st = getRequest fn sz)
    (hfn : is_valid_filename fn = true) (hsz : parseSize sz = some v) :
    handle_client_raw fs st =
      match fsLookup fs fn with
      | none => ⟨some ⟨"ERROR", .msg "File not found"⟩, [], fs⟩
      | some content => ⟨some ⟨"OK", .fileInfo fn content.length⟩, content, fs⟩ := by
  obtain ⟨hfnne, hfnw⟩ := valid_filename_props fn hfn
  obtain ⟨hszne, hszw⟩ := parseSize_props sz v hsz
  have hcw : ∀ b ∈ bytes "GET", isWs b = false := by decide
  have hcne : bytes "GET" ≠ [] := by decide
  have hH13 : ∀ b ∈ bytes "GET" ++ [32] ++ fn ++ [32] ++ sz, b ≠ 13 :=
    header_bytes_ne13 _ fn sz hcw hfnw hszw
  have hst2 : flatten st =
      (bytes "GET" ++ [32] ++ fn ++ [32] ++ sz) ++ delim ++ [] := by
    rw [hst, getRequest, List.append_nil]
  obtain ⟨P1, rest, hP, hner, hhandle⟩ :=
    handle_split fs st (bytes "GET" ++ [32] ++ fn ++ [32] ++ sz) [] hne hst2 hH13
  rw [hhandle]
  simp only [handleRequest]
  rw [splitWs_request (bytes "GET") fn sz P1 hcne hcw hfnne hfnw hszne hszw]
  simp only [hfn, hsz, if_true]
  rw [if_neg (by decide : ¬ ((bytes "GET").map upperByte = bytes "UPLOAD"))]
  rw [if_pos (by decide : (bytes "GET").map upperByte = bytes "GET")]

/-! ## Helper facts for command-case analysis -/

theorem upperByte_idem (b : Nat) : upperByte (upperByte b) = upperByte b := by
  unfold upperByte
  split
  · rename_i h
    rw [if_neg (by omega)]
  · rfl

theorem upperByte_not_ws (b : Nat) (h : isWs b = false) :
    isWs (upperByte b) = false := by
  unfold upperByte
  split
  · rename_i hb
    rw [Bool.eq_false_iff]
    intro hw
    simp only [isWs, Bool.or_eq_true, beq_iff_eq] at hw
    omega
  · exact h

theorem splitWs_cons_tok (c : List Nat) (hne : c ≠ []) (hc : ∀ b ∈ c, isWs b = false)
    (w : Nat) (hw : isWs w = true) (l : List Nat) :
    splitWs (c ++ w :: l) = c :: splitWs l := by
  rw [splitWs, splitWs]
  exact splitWs_token_sep c hne hc w hw l

/-! ## Claim theorems -/

/-- C1: for every byte sequence B of length L (including L = 0) uploaded under
a valid filename over a fresh connection, a subsequent GET of that filename
(with no interleaved operation) receives an OK response whose data carries
filesize = L, followed by a payload byte-identical to B. The upload and GET
connections may deliver their bytes in any nonempty segmentation. -/
theorem upload_get_roundtrip (fs : FS) (fn sz B : List Nat) (st st2 : NetStream)
    (hfn : is_valid_filename fn = true)
    (hsz : parseSize sz = some (B.length : Int))
    (hne : ∀ s ∈ st, s ≠ []) (hst : flatten st = uploadRequest fn sz B)
    (hne2 : ∀ s ∈ st2, s ≠ []) (hst2 : flatten st2 = getRequest fn (bytes "0")) :
    (handle_client_raw fs st).resp = some ⟨"OK", .uploaded fn⟩ ∧
    (handle_client_raw (handle_client_raw fs st).fs st2).resp =
      some ⟨"OK", .fileInfo fn B.length⟩ ∧
    (handle_client_raw (handle_client_raw fs st).fs st2).payload = B := by
  have h1 := handle_upload_le fs fn sz B (B.length : Int) st hne hst hfn hsz le_rfl
  rw [if_neg (lt_irrefl _)] at h1
  have hg := handle_get (fsWrite fs fn B) fn (bytes "0") 0 st2 hne2 hst2 hfn (by decide)
  rw [fsLookup_fsWrite] at hg
  refine ⟨by rw [h1], ?_, ?_⟩
  · rw [show (handle_client_raw fs st).fs = fsWrite fs fn B by rw [h1], hg]
  · rw [show (handle_client_raw fs st).fs = fsWrite fs fn B by rw [h1], hg]

/-- Witness for C1: uploading the two bytes [72, 73] as "a.txt" then getting
"a.txt" returns OK with filesize 2 and payload [72, 73]. -/
theorem upload_get_roundtrip_witness :
    is_valid_filename (bytes "a.txt") = true ∧
    parseSize (bytes "2") = some ((List.length [72, 73] : Nat) : Int) ∧
    ((handle_client_raw [] [uploadRequest (bytes "a.txt") (bytes "2") [72, 73]]).resp =
        some ⟨"OK", .uploaded (bytes "a.txt")⟩ ∧
      (handle_client_raw
          (handle_client_raw [] [uploadRequest (bytes "a.txt") (bytes "2") [72, 73]]).fs
          [getRequest (bytes "a.txt") (bytes "0")]).resp =
        some ⟨"OK", .fileInfo (bytes "a.txt") (List.length [72, 73])⟩ ∧
      (handle_client_raw
          (handle_client_raw [] [uploadRequest (bytes "a.txt") (bytes "2") [72, 73]]).fs
          [getRequest (bytes "a.txt") (bytes "0")]).payload = [72, 73]) :=
  ⟨by decide, by decide,
    upload_get_roundtrip [] (bytes "a.txt") (bytes "2") [72, 73]
      [uploadRequest (bytes "a.txt") (bytes "2") [72, 73]]
      [getRequest (bytes "a.txt") (bytes "0")]
      (by decide) (by decide) (by decide) (by decide) (by decide) (by decide)⟩

/-- C2 (amended): a request whose filename token contains a byte outside the
class [\w\-.] (ASCII: digits, letters, underscore, hyphen, dot) — in
particular a `/` — is answered with ERROR "Invalid filename", no payload is
sent, and the store is unchanged. Filenames containing `..` are NOT covered:
`.` is inside the allowed class, so such names pass validation (see the
counterexample). -/
theorem invalid_filename_rejected (fs : FS) (st : NetStream)
    (buf : List Nat) (rest : NetStream) (p0 p1 p2 : List Nat) (ps : List (List Nat))
    (hread : readHeader st = some (buf, rest))
    (hsplit : splitWs buf = p0 :: p1 :: p2 :: ps)
    (hbad : ∃ b ∈ p1, fnByte b = false) :
    handle_client_raw fs st = ⟨some ⟨"ERROR", .msg "Invalid filename"⟩, [], fs⟩ := by
  have hval : is_valid_filename p1 = false := by
    cases hv : is_valid_filename p1
    · rfl
    · exfalso
      rw [is_valid_filename, Bool.and_eq_true, List.all_eq_true] at hv
      obtain ⟨b, hb, hfb⟩ := hbad
      rw [hv.2 b hb] at hfb
      cases hfb
  rw [handle_client_raw, hread]
  simp only [handleRequest]
  rw [hsplit]
  simp only [hval, Bool.false_eq_true, if_false]

/-- C2 counterexample: the filename "a..b" contains ".." yet passes
is_valid_filename (the regex class [\w\-.] admits the dot), and an UPLOAD
under it succeeds and creates the file — contradicting the claim that any
filename containing ".." is rejected with no file created. -/
theorem filename_dotdot_counterexample :
    is_valid_filename (bytes "a..b") = true ∧
    (handle_client_raw [] [uploadRequest (bytes "a..b") (bytes "1") [120]]).resp =
      some ⟨"OK", .uploaded (bytes "a..b")⟩ ∧
    fsLookup (handle_client_raw [] [uploadRequest (bytes "a..b") (bytes "1") [120]]).fs
      (bytes "a..b") = some [120] := by decide

/-- Witness for the amended C2: the filename "a/b" contains `/` (byte 47,
outside the class) and the request is rejected with the store unchanged. -/
theorem invalid_filename_rejected_witness :
    (∃ b ∈ bytes "a/b", fnByte b = false) ∧
    handle_client_raw [] [uploadRequest (bytes "a/b") (bytes "1") [120]] =
      ⟨some ⟨"ERROR", .msg "Invalid filename"⟩, [], []⟩ :=
  ⟨by decide,
    invalid_filename_rejected [] [uploadRequest (bytes "a/b") (bytes "1") [120]]
      (uploadRequest (bytes "a/b") (bytes "1") [120]) []
      (bytes "UPLOAD") (bytes "a/b") (bytes "1") [[120]]
      (by decide) (by decide) (by decide)⟩

/-- C3: when the bytes already read past the header delimiter exceed the
declared size (remaining < 0), an UPLOAD is answered with the size-mismatch
ERROR, no payload is sent, and the store is unchanged (the destination file
is never opened). -/
theorem size_mismatch_leftover (fs : FS) (st : NetStream)
    (buf : List Nat) (rest : NetStream) (p0 p1 p2 : List Nat) (ps : List (List Nat))
    (S : Int)
    (hread : readHeader st = some (buf, rest))
    (hsplit : splitWs buf = p0 :: p1 :: p2 :: ps)
    (hcmd : p0.map upperByte = bytes "UPLOAD")
    (hfn : is_valid_filename p1 = true)
    (hsz : parseSize p2 = some S)
    (hover : S < ((afterDelim buf).length : Int)) :
    handle_client_raw fs st =
      ⟨some ⟨"ERROR", .msg "File size smaller than received data"⟩, [], fs⟩ := by
  rw [handle_client_raw, hread]
  simp only [handleRequest]
  rw [hsplit]
  simp only [hfn, hsz, if_true, hcmd]
  rw [if_pos (show S - ((afterDelim buf).length : Int) < 0 by omega)]

/-- Witness for C3: declared size 1 with 3 leftover bytes "abc" already in
the buffer; the stored file for "a" keeps its prior content [9]. -/
theorem size_mismatch_leftover_witness :
    parseSize (bytes "1") = some 1 ∧
    (1 : Int) < ((afterDelim (uploadRequest (bytes "a") (bytes "1") (bytes "abc"))).length : Int) ∧
    handle_client_raw [(bytes "a", [9])]
        [uploadRequest (bytes "a") (bytes "1") (bytes "abc")] =
      ⟨some ⟨"ERROR", .msg "File size smaller than received data"⟩, [], [(bytes "a", [9])]⟩ :=
  ⟨by decide, by decide,
    size_mismatch_leftover [(bytes "a", [9])]
      [uploadRequest (bytes "a") (bytes "1") (bytes "abc")]
      (uploadRequest (bytes "a") (bytes "1") (bytes "abc")) []
      (bytes "UPLOAD") (bytes "a") (bytes "1") [bytes "abc"] 1
      (by decide) (by decide) (by decide) (by decide) (by decide) (by decide)⟩

/-- C4: an UPLOAD declaring size S whose connection closes after delivering
only P with |P| < S (any nonempty segmentation) is answered with ERROR
"Incomplete file received", never OK. -/
theorem incomplete_upload_detected (fs : FS) (fn sz P : List Nat) (S : Int)
    (st : NetStream)
    (hne : ∀ s ∈ st, s ≠ []) (hst : flatten st = uploadRequest fn sz P)
    (hfn : is_valid_filename fn = true) (hsz : parseSize sz = some S)
    (hshort : (P.length : Int) < S) :
    (handle_client_raw fs st).resp = some ⟨"ERROR", .msg "Incomplete file received"⟩ := by
  rw [handle_upload_le fs fn sz P S st hne hst hfn hsz (le_of_lt hshort),
    if_pos hshort]

/-- Witness for C4: size 5 declared, only 3 payload bytes arrive before the
stream closes; the response is the incomplete-transfer ERROR. -/
theorem incomplete_upload_detected_witness :
    parseSize (bytes "5") = some 5 ∧
    ((List.length [1, 2, 3] : Nat) : Int) < 5 ∧
    (handle_client_raw [] [uploadRequest (bytes "a") (bytes "5") [1, 2, 3]]).resp =
      some ⟨"ERROR", .msg "Incomplete file received"⟩ :=
  ⟨by decide, by decide,
    incomplete_upload_detected [] (bytes "a") (bytes "5") [1, 2, 3] 5
      [uploadRequest (bytes "a") (bytes "5") [1, 2, 3]]
      (by decide) (by decide) (by decide) (by decide) (by decide)⟩

/-- C5 (amended): the malformed-request check counts the whitespace tokens
of the ENTIRE accumulated buffer, including any bytes incidentally read past
the delimiter; ERROR "Invalid command format" is sent exactly when that whole
buffer holds fewer than 3 tokens. Payload bytes read past the delimiter DO
count as tokens (see the counterexample). -/
theorem malformed_token_count (fs : FS) (st : NetStream) (buf : List Nat)
    (rest : NetStream)
    (hread : readHeader st = some (buf, rest))
    (hlen : (splitWs buf).length < 3) :
    handle_client_raw fs st =
      ⟨some ⟨"ERROR", .msg "Invalid command format"⟩, [], fs⟩ := by
  rw [handle_client_raw, hread]
  simp only [handleRequest]
  rcases hsp : splitWs buf with _ | ⟨a, _ | ⟨b, _ | ⟨c, ds⟩⟩⟩
  · rfl
  · rfl
  · rfl
  · rw [hsp] at hlen
    simp only [List.length_cons] at hlen
    omega

/-- C5 counterexample: the header text preceding the delimiter is the single
token "UPLOAD" (fewer than 3), yet because the payload bytes "foo 5" were
read in the same buffer, the server does not send the malformed-request
ERROR — it executes an upload of file "foo" and answers OK. -/
theorem malformed_counterexample :
    (splitWs (bytes "UPLOAD")).length < 3 ∧
    splitAtDelim (bytes "UPLOAD" ++ delim ++ bytes "foo 5") =
      some (bytes "UPLOAD", bytes "foo 5") ∧
    (handle_client_raw [] [bytes "UPLOAD" ++ delim ++ bytes "foo 5"]).resp =
      some ⟨"OK", .uploaded (bytes "foo")⟩ := by decide

/-- Witness for the amended C5: a buffer holding only "GET x" (2 tokens)
yields the malformed-request ERROR. -/
theorem malformed_token_count_witness :
    (splitWs (bytes "GET x" ++ delim)).length < 3 ∧
    handle_client_raw [] [bytes "GET x" ++ delim] =
      ⟨some ⟨"ERROR", .msg "Invalid command format"⟩, [], []⟩ :=
  ⟨by decide,
    malformed_token_count [] [bytes "GET x" ++ delim] (bytes "GET x" ++ delim) []
      (by decide) (by decide)⟩

/-- C6 (amended): the SERVER's UPLOAD receive loop is bounded by the declared
length: it never takes more than `remaining` payload bytes from the stream,
and every byte it does not take is left in the stream, in order. (The
client's response-payload loop is NOT bounded this way — see the
counterexample.) -/
theorem recv_payload_bounded (st : NetStream) (remaining : Int) :
    (recvPayload st remaining).1.length ≤ remaining.toNat ∧
    (recvPayload st remaining).1 ++ flatten (recvPayload st remaining).2 =
      flatten st := by
  rw [recvPayload]
  exact recvPayloadF_bound _ st remaining

/-- C6 counterexample: the client response-payload loop recv's full
524288-byte chunks without bounding them by the bytes still missing: with
declared filesize 1 and two bytes available in one chunk it consumes both,
touching a byte past the declared boundary. -/
theorem client_overread_counterexample :
    (clientRecvPayload [] [[65, 66]] 1).1 = [65, 66] ∧
    ¬ ((clientRecvPayload [] [[65, 66]] 1).1.length ≤ 1) := by decide

/-- C7 (amended): for GET requests whose SIZE token parses as an integer,
the token's value is ignored: two GETs for the same filename differing only
in their (parseable) SIZE tokens produce identical outcomes, and the
reported filesize always comes from the stored content's length. A SIZE
token that does not parse is answered with ERROR "Invalid file size"
instead (see the counterexample). -/
theorem get_size_ignored (fs : FS) (fn t1 t2 : List Nat) (v1 v2 : Int)
    (st1 st2 : NetStream)
    (hfn : is_valid_filename fn = true)
    (h1 : parseSize t1 = some v1) (h2 : parseSize t2 = some v2)
    (hne1 : ∀ s ∈ st1, s ≠ []) (hst1 : flatten st1 = getRequest fn t1)
    (hne2 : ∀ s ∈ st2, s ≠ []) (hst2 : flatten st2 = getRequest fn t2) :
    handle_client_raw fs st1 = handle_client_raw fs st2 := by
  rw [handle_get fs fn t1 v1 st1 hne1 hst1 hfn h1,
    handle_get fs fn t2 v2 st2 hne2 hst2 hfn h2]

/-- C7 counterexample: two GETs for the same filename "a" differing only in
their SIZE token ("x" versus "0") produce different responses: the
non-integer token draws ERROR "Invalid file size", not the missing-file
answer. -/
theorem get_size_counterexample :
    (handle_client_raw [] [getRequest (bytes "a") (bytes "x")]).resp =
      some ⟨"ERROR", .msg "Invalid file size"⟩ ∧
    (handle_client_raw [] [getRequest (bytes "a") (bytes "0")]).resp =
      some ⟨"ERROR", .msg "File not found"⟩ ∧
    handle_client_raw [] [getRequest (bytes "a") (bytes "x")] ≠
      handle_client_raw [] [getRequest (bytes "a") (bytes "0")] := by decide

/-- Witness for the amended C7: SIZE tokens "7" and "0" give identical
results for the stored file "a". -/
theorem get_size_ignored_witness :
    parseSize (bytes "7") = some 7 ∧ parseSize (bytes "0") = some 0 ∧
    handle_client_raw [(bytes "a", [66])] [getRequest (bytes "a") (bytes "7")] =
      handle_client_raw [(bytes "a", [66])] [getRequest (bytes "a") (bytes "0")] :=
  ⟨by decide, by decide,
    get_size_ignored [(bytes "a", [66])] (bytes "a") (bytes "7") (bytes "0") 7 0
      [getRequest (bytes "a") (bytes "7")] [getRequest (bytes "a") (bytes "0")]
      (by decide) (by decide) (by decide) (by decide) (by decide) (by decide)
      (by decide)⟩

/-- C8: a GET naming a file absent from the store is answered with exactly
status ERROR and data "File not found", no payload bytes follow, and the
store is unchanged. -/
theorem get_missing_file (fs : FS) (fn sz : List Nat) (v : Int) (st : NetStream)
    (hne : ∀ s ∈ st, s ≠ []) (hst : flatten st = getRequest fn sz)
    (hfn : is_valid_filename fn = true) (hsz : parseSize sz = some v)
    (hmiss : fsLookup fs fn = none) :
    handle_client_raw fs st = ⟨some ⟨"ERROR", .msg "File not found"⟩, [], fs⟩ := by
  rw [handle_get fs fn sz v st hne hst hfn hsz, hmiss]

/-- Witness for C8: GET "a" against a store holding only "b". -/
theorem get_missing_file_witness :
    fsLookup [(bytes "b", [1])] (bytes "a") = none ∧
    handle_client_raw [(bytes "b", [1])] [getRequest (bytes "a") (bytes "0")] =
      ⟨some ⟨"ERROR", .msg "File not found"⟩, [], [(bytes "b", [1])]⟩ :=
  ⟨by decide,
    get_missing_file [(bytes "b", [1])] (bytes "a") (bytes "0") 0
      [getRequest (bytes "a") (bytes "0")]
      (by decide) (by decide) (by decide) (by decide) (by decide)⟩

/-- C9: command matching is case-insensitive: a request whose command token
is any whitespace-free byte string is processed exactly like the request
whose command token is its upper-cased form — the handler applies .upper()
before comparing, so "upload" or "Get" behave like "UPLOAD" or "GET". -/
theorem command_case_insensitive (fs : FS) (rest : NetStream) (c tail : List Nat)
    (hcne : c ≠ []) (hcw : ∀ b ∈ c, isWs b = false) :
    handleRequest fs (c ++ 32 :: tail) rest =
      handleRequest fs (c.map upperByte ++ 32 :: tail) rest := by
  have h32ws : isWs 32 = true := by decide
  have hcne2 : c.map upperByte ≠ [] := by
    intro h
    exact hcne (List.map_eq_nil_iff.mp h)
  have hcw2 : ∀ b ∈ c.map upperByte, isWs b = false := by
    intro b hb
    obtain ⟨a, ha, rfl⟩ := List.mem_map.mp hb
    exact upperByte_not_ws a (hcw a ha)
  have ha1 : afterDelim (c ++ 32 :: tail) = afterDelim (32 :: tail) :=
    afterDelim_append_noCR c _ (fun b hb => not_ws_ne13 b (hcw b hb))
  have ha2 : afterDelim (c.map upperByte ++ 32 :: tail) = afterDelim (32 :: tail) :=
    afterDelim_append_noCR _ _ (fun b hb => not_ws_ne13 b (hcw2 b hb))
  have hidem : (c.map upperByte).map upperByte = c.map upperByte := by
    rw [List.map_map]
    exact List.map_congr_left (fun a _ => upperByte_idem a)
  simp only [handleRequest, splitWs_cons_tok c hcne hcw 32 h32ws tail,
    splitWs_cons_tok _ hcne2 hcw2 32 h32ws tail, ha1, ha2]
  rcases htail : splitWs tail with _ | ⟨p1, _ | ⟨p2, ps⟩⟩
  · rfl
  · rfl
  · simp only [hidem]

/-- Witness for C9: the lower-case command "upload" behaves exactly like
"UPLOAD". -/
theorem command_case_insensitive_witness :
    (bytes "upload").map upperByte = bytes "UPLOAD" ∧
    handleRequest [] (bytes "upload" ++ 32 :: (bytes "a 0" ++ delim)) [] =
      handleRequest [] ((bytes "upload").map upperByte ++ 32 :: (bytes "a 0" ++ delim)) [] :=
  ⟨by decide,
    command_case_insensitive [] [] (bytes "upload") (bytes "a 0" ++ delim)
      (by decide) (by decide)⟩

/-- C10: an UPLOAD whose size token parses as a negative integer is always
answered with the size-mismatch ERROR "File size smaller than received
data" (remaining = size − leftover is necessarily negative), no payload is
sent, and the store is untouched. -/
theorem negative_size_rejected (fs : FS) (st : NetStream)
    (buf : List Nat) (rest : NetStream) (p0 p1 p2 : List Nat) (ps : List (List Nat))
    (S : Int)
    (hread : readHeader st = some (buf, rest))
    (hsplit : splitWs buf = p0 :: p1 :: p2 :: ps)
    (hcmd : p0.map upperByte = bytes "UPLOAD")
    (hfn : is_valid_filename p1 = true)
    (hsz : parseSize p2 = some S)
    (hneg : S < 0) :
    handle_client_raw fs st =
      ⟨some ⟨"ERROR", .msg "File size smaller than received data"⟩, [], fs⟩ := by
  rw [handle_client_raw, hread]
  simp only [handleRequest]
  rw [hsplit]
  simp only [hfn, hsz, if_true, hcmd]
  rw [if_pos (show S - ((afterDelim buf).length : Int) < 0 by omega)]

/-- Witness for C10: size token "-5" parses to −5 and the upload is refused
with the size-mismatch ERROR, the stored file "a" keeping its content. -/
theorem negative_size_rejected_witness :
    parseSize (bytes "-5") = some (-5) ∧ (-5 : Int) < 0 ∧
    handle_client_raw [(bytes "a", [9])] [uploadRequest (bytes "a") (bytes "-5") []] =
      ⟨some ⟨"ERROR", .msg "File size smaller than received data"⟩, [],
        [(bytes "a", [9])]⟩ :=
  ⟨by decide, by decide,
    negative_size_rejected [(bytes "a", [9])]
      [uploadRequest (bytes "a") (bytes "-5") []]
      (uploadRequest (bytes "a") (bytes "-5") []) []
      (bytes "UPLOAD") (bytes "a") (bytes "-5") [] (-5)
      (by decide) (by decide) (by decide) (by decide) (by decide) (by decide)⟩

end FileSrv

